import Mathlib

/-!
Verification of the lucupy helper functions (src/lucupy/helpers/__init__.py)
and the observatory-properties registry
(src/lucupy/observatory/abstract/__init__.py).

Python strings are modelled as Lean strings, split into character lists for
the colon/period splitting that the source performs with str.split.  Python
floats are modelled by rationals, so the algebraic identities of the source
formulas hold exactly.  Python exceptions are modelled by an error type:
the distinct ValueError messages raised by the source are mapped to distinct
constructors so that format errors can be told apart from numeric-parse
errors and registry errors.
-/

namespace Lucupy

/-- Error kinds: each constructor corresponds to one family of exceptions the
source raises. formatError models the ValueError with message
"Illegal DMS string"/"Illegal HMS string"/"Illegal sign"; parseError models
the ValueError raised by the int()/float() builtins on a malformed numeral;
notConfigured models ValueError "Properties have not been set.";
illegalProperties models ValueError "Illegal properties value."; typeError
models the TypeError raised by issubclass on a non-class argument;
attributeError models the AttributeError raised by attribute access on an
object without that attribute, as when astype is taken on a str. -/
inductive PyErr where
  | formatError
  | parseError
  | notConfigured
  | illegalProperties
  | typeError
  | attributeError
  deriving DecidableEq, Repr

/-- Python s.split(sep) for a one-character separator, on the character list
of the string: splitting the empty string yields one empty field. -/
def splitOnChar (sep : Char) : List Char → List (List Char)
  | [] => [[]]
  | c :: cs =>
      if c = sep then [] :: splitOnChar sep cs
      else
        match splitOnChar sep cs with
        | [] => [[c]]
        | f :: r => (c :: f) :: r

/-- Value of a nonempty all-digit character list, none otherwise. -/
def digitsVal (l : List Char) : Option ℕ :=
  if l = [] then none
  else if l.all (·.isDigit) then
    some (l.foldl (fun a c => 10 * a + (c.toNat - '0'.toNat)) 0)
  else none

/-- Modelled from the Python builtin int(): an optional sign followed by a
nonempty digit string (whitespace and underscore forms are not needed by the
callers modelled here). -/
def pyInt (l : List Char) : Option ℤ :=
  match l with
  | '+' :: rest => (digitsVal rest).map (fun n => (n : ℤ))
  | '-' :: rest => (digitsVal rest).map (fun n => -(n : ℤ))
  | _ => (digitsVal l).map (fun n => (n : ℤ))

/-- Magnitude part of a plain decimal numeral: digits, optionally split by a
single period, with at least one digit present. -/
def pyFloatMag (l : List Char) : Option ℚ :=
  match splitOnChar '.' l with
  | [a] => (digitsVal a).map (fun n => (n : ℚ))
  | [a, b] =>
      if a = [] ∧ b = [] then none
      else
        match (if a = [] then some 0 else digitsVal a),
              (if b = [] then some (0 : ℚ)
               else (digitsVal b).map (fun n => (n : ℚ) / 10 ^ b.length)) with
        | some i, some f => some ((i : ℚ) + f)
        | _, _ => none
  | _ => none

/-- Modelled from the Python builtin float() on plain decimal numerals (no
exponent, infinity or nan forms are needed by the callers modelled here). -/
def pyFloat (l : List Char) : Option ℚ :=
  match l with
  | '+' :: rest => pyFloatMag rest
  | '-' :: rest => (pyFloatMag rest).map (fun q => -q)
  | _ => pyFloatMag l

/-- SIGNS dict of the source: sign string to multiplier. -/
def SIGNS : List (String × ℤ) := [("", 1), ("+", 1), ("-", -1)]

/-- dms2deg of the source: degrees, minutes, seconds and a sign string to
decimal degrees, raising on a sign outside SIGNS, and wrapping values of at
least 180 by the branch dec if dec less than 180 else -(360 - dec). -/
def dms2deg (d m : ℤ) (s : ℚ) (sign : String) : Except PyErr ℚ :=
  match SIGNS.lookup sign with
  | none => .error .formatError
  | some sv =>
      let dec : ℚ := (sv : ℚ) * ((d : ℚ) + (m : ℚ) / 60 + s / 3600)
      .ok (if dec < 180 then dec else -(360 - dec))

/-- Sign stripping of dmsstr2deg: the source tests membership of the
one-character string s[0] among the keys of SIGNS; a one-character string is
a key exactly when it is "+" or "-", the remaining key being empty.  When it
is a key it becomes the sign and is removed; otherwise the sign defaults to
"+" and the string is kept whole. -/
def stripSign (s : List Char) : String × List Char :=
  match s with
  | c :: cs =>
      if c = '+' ∨ c = '-' then (String.mk [c], cs) else ("+", c :: cs)
  | [] => ("+", [])

/-- dmsstr2deg of the source: reject the empty string, strip an optional
leading sign, split on colons, require exactly three fields, parse them as
int, int, float and delegate to dms2deg. -/
def dmsstr2deg (s : String) : Except PyErr ℚ :=
  if s.data = [] then .error .formatError
  else
    match splitOnChar ':' (stripSign s.data).2 with
    | [a, b, c] =>
        match pyInt a, pyInt b, pyFloat c with
        | some dv, some mv, some sv => dms2deg dv mv sv (stripSign s.data).1
        | _, _, _ => .error .parseError
    | _ => .error .formatError

/-- hms2deg of the source: hours, minutes, seconds to degrees, unsigned and
unwrapped. -/
def hms2deg (h m : ℤ) (s : ℚ) : ℚ := (h : ℚ) + (m : ℚ) / 60 + s / 3600

/-- hms2rad of the source: hms2deg times pi over 12. -/
noncomputable def hms2rad (h m : ℤ) (s : ℚ) : ℝ :=
  ((hms2deg h m s : ℚ) : ℝ) * Real.pi / 12

/-- hmsstr2deg of the source: reject the empty string, split on colons with
no sign handling, require exactly three fields, parse them as int, int,
float and delegate to hms2deg. -/
def hmsstr2deg (s : String) : Except PyErr ℚ :=
  if s.data = [] then .error .formatError
  else
    match splitOnChar ':' s.data with
    | [a, b, c] =>
        match pyInt a, pyInt b, pyFloat c with
        | some hv, some mv, some sv => .ok (hms2deg hv mv sv)
        | _, _, _ => .error .parseError
    | _ => .error .formatError

/-- Modelled from numpy arctan2(y, x): the argument of the complex number
with real part x and imaginary part y, in (-pi, pi], with arctan2 0 0 = 0. -/
noncomputable def arctan2 (y x : ℝ) : ℝ := Complex.arg ⟨x, y⟩

/-- angular_distance of the source: the haversine-form great-circle
separation of two (ra, dec) points given in radians. -/
noncomputable def angular_distance (ra1 dec1 ra2 dec2 : ℝ) : ℝ :=
  let phi_1 := dec1
  let phi_2 := dec2
  let delta_phi := dec2 - dec1
  let delta_lambda := ra2 - ra1
  let a := Real.sin (delta_phi / 2) ^ 2 +
    Real.cos phi_1 * Real.cos phi_2 * Real.sin (delta_lambda / 2) ^ 2
  2 * arctan2 (Real.sqrt a) (Real.sqrt (1 - a))

/-- Modelled from numpy linspace(a, b, num): num evenly spaced points from a
to b inclusive; a negative num raises, so the result is an option.  In exact
rational arithmetic the point at index i is a + (b - a) * i / (num - 1); for
num equal to one the rational convention that division by zero is zero makes
the single point equal a, as numpy does. -/
def linspace (a b : ℚ) (num : ℤ) : Option (List ℚ) :=
  if num < 0 then none
  else some ((List.range num.toNat).map
    (fun i : ℕ => a + (b - a) * (i : ℚ) / ((num : ℚ) - 1)))

/-- Modelled from bisect.bisect_right on a sorted list: the insertion point
after any entries equal to x, that is the length of the longest prefix of
elements at most x. -/
def bisect_right (l : List ℚ) (x : ℚ) : ℕ :=
  (l.takeWhile (fun y => decide (y ≤ x))).length

/-- Modelled from bisect.bisect_left on a sorted list: the insertion point
before any entries equal to x, that is the length of the longest prefix of
elements below x. -/
def bisect_left (l : List ℚ) (x : ℚ) : ℕ :=
  (l.takeWhile (fun y => decide (y < x))).length

/-- Python list indexing with a possibly negative index: a negative index
counts from the end of the list, and an out-of-range index raises. -/
def pyGet (l : List ℚ) (i : ℤ) : Option ℚ :=
  if 0 ≤ i then l.get? i.toNat
  else if 0 ≤ i + l.length then l.get? (i + l.length).toNat
  else none

/-- A Python list comprehension whose body may raise: the list of results,
or none as soon as any element raises. -/
def mapOrNone (f : ℚ → Option ℚ) : List ℚ → Option (List ℚ)
  | [] => some []
  | x :: xs =>
      match f x, mapOrNone f xs with
      | some y, some ys => some (y :: ys)
      | _, _ => none

/-- lerp_enum of the source, over the list of float values of the
enumeration members: build the linspace grid of n + 2 points, cut off the
two endpoints, sort the enumeration values, and for each grid point index
the sorted values at the bisection insertion point minus one; the right
bisection is used on an ascending ramp and the left one on a descending
ramp.  An index of minus one falls through to Python negative indexing. -/
def lerp_enum (values : List ℚ) (first_value last_value : ℚ) (n : ℤ) :
    Option (List ℚ) :=
  match linspace first_value last_value (n + 2) with
  | none => none
  | some full =>
      let interp_values := (full.drop 1).dropLast
      let sorted_values := List.insertionSort (· ≤ ·) values
      if first_value ≤ last_value then
        mapOrNone
          (fun x => pyGet sorted_values ((bisect_right sorted_values x : ℤ) - 1))
          interp_values
      else
        mapOrNone
          (fun x => pyGet sorted_values ((bisect_left sorted_values x : ℤ) - 1))
          interp_values

/-- A UTC timestamp at second resolution: the minute index since some epoch
and the second within the minute (below 60 for a normalized time). -/
structure TimeStamp where
  minute : ℤ
  sec : ℕ
  deriving DecidableEq, Repr

/-- An astropy Time value: either a scalar time or an array of times.  The
two shapes behave differently in the source, so the model keeps them
apart. -/
inductive PyTime where
  | scalar (t : TimeStamp)
  | vector (ts : List TimeStamp)
  deriving DecidableEq, Repr

/-- Models the source expression t.strftime('%S').astype(int): astropy
Time.strftime returns a plain str for a scalar time, and a str has no
astype attribute, so the scalar case raises an AttributeError; for an array
time it returns an array of strings whose astype(int) is the array of
integer second components. -/
def strftime_astype : PyTime → Except PyErr (List ℕ)
  | .scalar _ => .error .attributeError
  | .vector ts => .ok (ts.map (fun x => x.sec))

/-- round_minute of the source.  Formatting at minute resolution (iso with
out_subfmt date_hm) truncates the seconds.  When rounding up, the source
first evaluates t.strftime('%S').astype(int), which raises on a scalar
input; on an array input the np.where indices of the elements with positive
second component receive one extra minute before the final truncation.  The
branch where strftime_astype succeeds on a scalar is unreachable. -/
def round_minute (time : PyTime) (up : Bool) : Except PyErr PyTime :=
  match time with
  | .scalar x =>
      if up then
        match strftime_astype (.scalar x) with
        | .error e => .error e
        | .ok _ => .ok (.scalar ⟨x.minute, 0⟩)
      else .ok (.scalar ⟨x.minute, 0⟩)
  | .vector ts =>
      if up then
        match strftime_astype (.vector ts) with
        | .error e => .error e
        | .ok _ =>
            .ok (.vector ((ts.map
              (fun x => if 0 < x.sec then ⟨x.minute + 1, x.sec⟩ else x)).map
              (fun x => ⟨x.minute, 0⟩)))
      else .ok (.vector (ts.map (fun x => ⟨x.minute, 0⟩)))

/-- The capability set of an installed observatory-properties
implementation, over opaque external domain types. -/
structure PropsImpl (Resource Resources Wavelengths ObservationModes
    ObservationMode T TD : Type) where
  determine_standard_time : Resources → Wavelengths → ObservationModes → ℤ → T
  is_instrument : Resource → Bool
  acquisition_time : Resource → ObservationMode → Option TD

/-- Argument passed to set_properties: either a class, carrying whether it
is a subclass of ObservatoryProperties together with its no-argument
constructor, or an already constructed instance, on which issubclass raises
a TypeError. -/
inductive PropsArg (Impl : Type) where
  | cls (isSubclass : Bool) (construct : Unit → Impl)
  | inst (i : Impl)

/-- set_properties of the source: reject a non-class argument and a class
that is not a subclass of ObservatoryProperties, and otherwise store a newly
constructed instance of the class as the new registry state, ignoring the
previous state. -/
def set_properties {Impl : Type} (arg : PropsArg Impl) :
    Except PyErr (Option Impl) :=
  match arg with
  | .inst _ => .error .typeError
  | .cls isSubclass construct =>
      if isSubclass then .ok (some (construct ())) else .error .illegalProperties

/-- determine_standard_time of the source: forward to the installed
implementation, or raise when the slot is unset.  The redundant inner
_check_properties call of the source never raises on the branch where it
runs. -/
def determine_standard_time {R Rs W Ms M T TD : Type}
    (st : Option (PropsImpl R Rs W Ms M T TD))
    (resources : Rs) (wavelengths : W) (modes : Ms) (cal_length : ℤ) :
    Except PyErr T :=
  match st with
  | some p => .ok (p.determine_standard_time resources wavelengths modes cal_length)
  | none => .error .notConfigured

/-- is_instrument of the source: forward to the installed implementation,
or raise when the slot is unset. -/
def is_instrument {R Rs W Ms M T TD : Type}
    (st : Option (PropsImpl R Rs W Ms M T TD)) (resource : R) :
    Except PyErr Bool :=
  match st with
  | some p => .ok (p.is_instrument resource)
  | none => .error .notConfigured

/-- acquisition_time of the source: forward to the installed implementation,
or raise when the slot is unset. -/
def acquisition_time {R Rs W Ms M T TD : Type}
    (st : Option (PropsImpl R Rs W Ms M T TD)) (resource : R)
    (observation_mode : M) : Except PyErr (Option TD) :=
  match st with
  | some p => .ok (p.acquisition_time resource observation_mode)
  | none => .error .notConfigured

lemma lookup_sign_empty : SIGNS.lookup "" = some 1 := rfl

lemma lookup_sign_plus : SIGNS.lookup "+" = some 1 := rfl

lemma lookup_sign_minus : SIGNS.lookup "-" = some (-1) := rfl

/-- The wrap branch of the source, dec if dec is below 180 else -(360 - dec),
agrees with the rule stated by the spec: subtract 360 when the signed value
is at least 180, keep it otherwise. -/
lemma wrap_eq (x : ℚ) :
    (if x < 180 then x else -(360 - x)) = (if 180 ≤ x then x - 360 else x) := by
  rcases lt_or_le x 180 with h | h
  · rw [if_pos h, if_neg (not_le.mpr h)]
  · rw [if_neg (not_lt.mpr h), if_pos h]
    ring

/-- C1: for every sign in the SIGNS set and all components, dms2deg returns
the signed value d + m/60 + s/3600, minus 360 when that signed value is at
least 180 and unchanged otherwise; in particular dms2deg 200 0 0 "+" is
-160, not 200. -/
theorem dms2deg_signed_wrap (sign : String)
    (hsign : sign = "" ∨ sign = "+" ∨ sign = "-") :
    (∀ (d m : ℤ) (s : ℚ),
      dms2deg d m s sign =
        .ok (if 180 ≤ (if sign = "-" then (-1 : ℚ) else 1) * ((d : ℚ) + (m : ℚ) / 60 + s / 3600)
             then (if sign = "-" then (-1 : ℚ) else 1) * ((d : ℚ) + (m : ℚ) / 60 + s / 3600) - 360
             else (if sign = "-" then (-1 : ℚ) else 1) * ((d : ℚ) + (m : ℚ) / 60 + s / 3600))) ∧
    dms2deg 200 0 0 "+" = .ok (-160) := by
  constructor
  · intro d m s
    obtain h | h | h := hsign <;> subst h
    · rw [show (if ("" : String) = "-" then (-1 : ℚ) else 1) = 1 from if_neg (by decide)]
      simp only [dms2deg, lookup_sign_empty, Int.cast_one]
      exact congrArg Except.ok (wrap_eq (1 * ((d : ℚ) + (m : ℚ) / 60 + s / 3600)))
    · rw [show (if ("+" : String) = "-" then (-1 : ℚ) else 1) = 1 from if_neg (by decide)]
      simp only [dms2deg, lookup_sign_plus, Int.cast_one]
      exact congrArg Except.ok (wrap_eq (1 * ((d : ℚ) + (m : ℚ) / 60 + s / 3600)))
    · rw [show (if ("-" : String) = "-" then (-1 : ℚ) else 1) = -1 from if_pos rfl]
      simp only [dms2deg, lookup_sign_minus, Int.cast_neg, Int.cast_one]
      exact congrArg Except.ok (wrap_eq (-1 * ((d : ℚ) + (m : ℚ) / 60 + s / 3600)))
  · simp only [dms2deg, lookup_sign_plus]
    norm_num

/-- C1 witness at sign "+". -/
theorem dms2deg_signed_wrap_witness :
    ("+" = "" ∨ "+" = "+" ∨ "+" = "-") ∧ dms2deg 200 0 0 "+" = .ok (-160) :=
  ⟨Or.inr (Or.inl rfl), (dms2deg_signed_wrap "+" (Or.inr (Or.inl rfl))).2⟩

/-- C9: hms2deg returns h + m/60 + s/3600 with no wrap and no sign, hms2rad
multiplies that value by pi over 12, and at 12h they give 12 degrees-value
and pi radians. -/
theorem hms2deg_hms2rad_spec :
    (∀ (h m : ℤ) (s : ℚ), hms2deg h m s = (h : ℚ) + (m : ℚ) / 60 + s / 3600) ∧
    (∀ (h m : ℤ) (s : ℚ), hms2rad h m s = ((hms2deg h m s : ℚ) : ℝ) * Real.pi / 12) ∧
    hms2deg 12 0 0 = 12 ∧ hms2rad 12 0 0 = Real.pi := by
  refine ⟨fun _ _ _ => rfl, fun _ _ _ => rfl, by norm_num [hms2deg], ?_⟩
  have h12 : hms2deg 12 0 0 = 12 := by norm_num [hms2deg]
  rw [hms2rad, h12]
  push_cast
  ring

lemma stripSign_fst (l : List Char) :
    (stripSign l).1 = "+" ∨ (stripSign l).1 = "-" := by
  cases l with
  | nil => left; rfl
  | cons c cs =>
    simp only [stripSign]
    split_ifs with h
    · rcases h with h | h <;> subst h
      · left; rfl
      · right; rfl
    · left; rfl

lemma dms2deg_plus_ne_error (d m : ℤ) (s : ℚ) (e : PyErr) :
    dms2deg d m s "+" ≠ .error e := by
  simp [dms2deg, lookup_sign_plus]

lemma dms2deg_minus_ne_error (d m : ℤ) (s : ℚ) (e : PyErr) :
    dms2deg d m s "-" ≠ .error e := by
  simp [dms2deg, lookup_sign_minus]

/-- C8: dmsstr2deg fails with the format error exactly on the empty string
or when the sign-stripped string does not split into three colon fields; on
a well-formed string it returns dms2deg on the parsed components with the
stripped sign, so that "-10:30:00" gives -10.5. -/
theorem dmsstr2deg_spec (s : String) :
    (dmsstr2deg s = .error .formatError ↔
      s.data = [] ∨ (splitOnChar ':' (stripSign s.data).2).length ≠ 3) ∧
    (∀ (a b c : List Char) (dv mv : ℤ) (sv : ℚ),
      s.data ≠ [] →
      splitOnChar ':' (stripSign s.data).2 = [a, b, c] →
      pyInt a = some dv → pyInt b = some mv → pyFloat c = some sv →
      dmsstr2deg s = dms2deg dv mv sv (stripSign s.data).1) ∧
    dmsstr2deg "-10:30:00" = .ok (-21 / 2) := by
  refine ⟨?_, ?_, ?_⟩
  · by_cases hs : s.data = []
    · simp [dmsstr2deg, hs]
    · simp only [dmsstr2deg, if_neg hs, eq_false hs, false_or]
      rcases hL : splitOnChar ':' (stripSign s.data).2 with
        _ | ⟨a, _ | ⟨b, _ | ⟨c, _ | ⟨d, rest⟩⟩⟩⟩
      · simp
      · simp
      · simp
      · simp only [List.length_cons, List.length_nil]
        norm_num
        rcases hA : pyInt a with _ | dv
        · simp
        · rcases hB : pyInt b with _ | mv
          · simp
          · rcases hC : pyFloat c with _ | sv
            · simp
            · rcases stripSign_fst s.data with hf | hf <;> simp only [hf]
              · exact dms2deg_plus_ne_error dv mv sv _
              · exact dms2deg_minus_ne_error dv mv sv _
      · simp
  · intro a b c dv mv sv hs hsplit ha hb hc
    simp only [dmsstr2deg, if_neg hs, hsplit, ha, hb, hc]
  · have hsplit : splitOnChar ':' (stripSign "-10:30:00".data).2 =
        [['1', '0'], ['3', '0'], ['0', '0']] := by decide
    have hsign : (stripSign "-10:30:00".data).1 = "-" := by decide
    have hne : "-10:30:00".data ≠ [] := by decide
    have ha : pyInt ['1', '0'] = some 10 := by decide
    have hb : pyInt ['3', '0'] = some 30 := by decide
    have hc : pyFloat ['0', '0'] = some 0 := by
      simp [pyFloat, pyFloatMag, splitOnChar, digitsVal]
    simp only [dmsstr2deg, if_neg hne, hsplit, ha, hb, hc, hsign, dms2deg,
      lookup_sign_minus]
    norm_num

/-- C8 witness at the string "+1:2:30". -/
theorem dmsstr2deg_spec_witness :
    dmsstr2deg "+1:2:30" = dms2deg 1 2 30 (stripSign "+1:2:30".data).1 :=
  (dmsstr2deg_spec "+1:2:30").2.1 ['1'] ['2'] ['3', '0'] 1 2 30
    (by decide) (by decide) (by decide) (by decide)
    (by simp [pyFloat, pyFloatMag, splitOnChar, digitsVal])

/-- C5: hmsstr2deg fails with the format error exactly on the empty string
or when the string does not split into three colon fields, with no sign
prefix accepted; on a well-formed string it returns hms2deg on the three
parsed fields. -/
theorem hmsstr2deg_spec (s : String) :
    (hmsstr2deg s = .error .formatError ↔
      s.data = [] ∨ (splitOnChar ':' s.data).length ≠ 3) ∧
    (∀ (a b c : List Char) (hv mv : ℤ) (sv : ℚ),
      s.data ≠ [] →
      splitOnChar ':' s.data = [a, b, c] →
      pyInt a = some hv → pyInt b = some mv → pyFloat c = some sv →
      hmsstr2deg s = .ok (hms2deg hv mv sv)) := by
  constructor
  · by_cases hs : s.data = []
    · simp [hmsstr2deg, hs]
    · simp only [hmsstr2deg, if_neg hs, eq_false hs, false_or]
      rcases hL : splitOnChar ':' s.data with
        _ | ⟨a, _ | ⟨b, _ | ⟨c, _ | ⟨d, rest⟩⟩⟩⟩
      · simp
      · simp
      · simp
      · simp only [List.length_cons, List.length_nil]
        norm_num
        rcases hA : pyInt a with _ | hv
        · simp
        · rcases hB : pyInt b with _ | mv
          · simp
          · rcases hC : pyFloat c with _ | sv
            · simp
            · simp
      · simp
  · intro a b c hv mv sv hs hsplit ha hb hc
    simp only [hmsstr2deg, if_neg hs, hsplit, ha, hb, hc]

/-- C5 witness at the string "1:2:30". -/
theorem hmsstr2deg_spec_witness :
    hmsstr2deg "1:2:30" = .ok (hms2deg 1 2 30) :=
  (hmsstr2deg_spec "1:2:30").2 ['1'] ['2'] ['3', '0'] 1 2 30
    (by decide) (by decide) (by decide) (by decide)
    (by simp [pyFloat, pyFloatMag, splitOnChar, digitsVal])

lemma arctan2_nonneg_of_nonneg {y x : ℝ} (hy : 0 ≤ y) :
    0 ≤ arctan2 y x :=
  Complex.arg_nonneg_iff.mpr hy

lemma arctan2_le_pi_div_two_of_nonneg {y x : ℝ} (hx : 0 ≤ x) :
    arctan2 y x ≤ Real.pi / 2 :=
  (abs_le.mp (Complex.abs_arg_le_pi_div_two_iff.mpr hx)).2

/-- C3: angular_distance is twice the arctan2 of the square roots of the
haversine quantity a and of 1 - a, lies in the closed interval from 0 to pi,
vanishes on coincident points, and equals pi on the antipodal pair taken
along the equator. -/
theorem angular_distance_spec :
    (∀ ra1 dec1 ra2 dec2 : ℝ,
      angular_distance ra1 dec1 ra2 dec2 =
        2 * arctan2
          (Real.sqrt (Real.sin ((dec2 - dec1) / 2) ^ 2 +
            Real.cos dec1 * Real.cos dec2 * Real.sin ((ra2 - ra1) / 2) ^ 2))
          (Real.sqrt (1 - (Real.sin ((dec2 - dec1) / 2) ^ 2 +
            Real.cos dec1 * Real.cos dec2 * Real.sin ((ra2 - ra1) / 2) ^ 2))) ∧
      0 ≤ angular_distance ra1 dec1 ra2 dec2 ∧
      angular_distance ra1 dec1 ra2 dec2 ≤ Real.pi) ∧
    angular_distance 0 0 0 0 = 0 ∧
    angular_distance 0 0 Real.pi 0 = Real.pi := by
  have harg : ∀ y x : ℝ, 0 ≤ y → 0 ≤ x →
      0 ≤ 2 * arctan2 y x ∧ 2 * arctan2 y x ≤ Real.pi := by
    intro y x hy hx
    have h1 := arctan2_nonneg_of_nonneg (x := x) hy
    have h2 := arctan2_le_pi_div_two_of_nonneg (y := y) hx
    constructor
    · linarith
    · linarith
  have hone : (⟨1, 0⟩ : ℂ) = 1 := by
    apply Complex.ext <;> simp
  have hi : (⟨0, 1⟩ : ℂ) = Complex.I := by
    apply Complex.ext <;> simp
  refine ⟨?_, ?_, ?_⟩
  · intro ra1 dec1 ra2 dec2
    refine ⟨rfl, ?_⟩
    exact harg _ _ (Real.sqrt_nonneg _) (Real.sqrt_nonneg _)
  · show 2 * arctan2 _ _ = 0
    have ha : Real.sin ((0 - 0 : ℝ) / 2) ^ 2 +
        Real.cos 0 * Real.cos 0 * Real.sin ((0 - 0 : ℝ) / 2) ^ 2 = 0 := by
      norm_num
    rw [ha]
    have : arctan2 (Real.sqrt 0) (Real.sqrt (1 - 0)) = 0 := by
      rw [Real.sqrt_zero]
      norm_num [arctan2, hone]
    rw [this]
    ring
  · show 2 * arctan2 _ _ = Real.pi
    have ha : Real.sin ((0 - 0 : ℝ) / 2) ^ 2 +
        Real.cos 0 * Real.cos 0 * Real.sin ((Real.pi - 0) / 2) ^ 2 = 1 := by
      norm_num [Real.sin_pi_div_two]
    rw [ha]
    have : arctan2 (Real.sqrt 1) (Real.sqrt (1 - 1)) = Real.pi / 2 := by
      rw [Real.sqrt_one]
      norm_num [arctan2, hi, Complex.arg_I]
    rw [this]
    ring

/-- C4: on an array input round_minute truncates every element to the start
of its minute and, when rounding up, first advances by exactly one minute
every element whose second component is nonzero; a scalar input is rounded
down correctly, but a scalar input with round_up raises the AttributeError
coming from astype on the plain string that strftime returns for scalars,
so the claimed scalar correctness fails there; in particular the scalar
time at second 30 raises when rounded up. -/
theorem round_minute_spec :
    (∀ (times : List TimeStamp) (up : Bool),
      round_minute (.vector times) up =
        .ok (.vector (times.map (fun x =>
          if up = true ∧ x.sec ≠ 0 then ⟨x.minute + 1, 0⟩ else ⟨x.minute, 0⟩)))) ∧
    (∀ t : TimeStamp, round_minute (.scalar t) false = .ok (.scalar ⟨t.minute, 0⟩)) ∧
    (∀ t : TimeStamp, round_minute (.scalar t) true = .error .attributeError) ∧
    round_minute (.scalar ⟨0, 30⟩) true = .error .attributeError := by
  refine ⟨?_, fun t => rfl, fun t => rfl, rfl⟩
  intro times up
  cases up with
  | false =>
    rw [show round_minute (.vector times) false =
      .ok (.vector (times.map (fun x => ⟨x.minute, 0⟩))) from rfl]
    refine congrArg (fun l => Except.ok (PyTime.vector l)) ?_
    congr 1
  | true =>
    rw [show round_minute (.vector times) true =
      .ok (.vector ((times.map (fun x => if 0 < x.sec then ⟨x.minute + 1, x.sec⟩ else x)).map
        (fun x => ⟨x.minute, 0⟩))) from rfl]
    refine congrArg (fun l => Except.ok (PyTime.vector l)) ?_
    rw [List.map_map]
    congr 1
    funext x
    by_cases hx : 0 < x.sec
    · simp [Function.comp_def, hx, Nat.pos_iff_ne_zero.mp hx]
    · simp [Function.comp_def, hx, Nat.eq_zero_of_not_pos hx]

/-- C7: each registry query raises the not-configured error whenever the
slot is unset, and forwards its arguments verbatim to the like-named
operation of the installed implementation when the slot is set; in
particular after a successful set_properties on a class, is_instrument
returns exactly what the freshly constructed instance returns. -/
theorem registry_forwarding (R Rs W Ms M T TD : Type) :
    (∀ (r : Rs) (w : W) (m : Ms) (c : ℤ),
      determine_standard_time (none : Option (PropsImpl R Rs W Ms M T TD)) r w m c =
        .error .notConfigured) ∧
    (∀ r : R,
      is_instrument (none : Option (PropsImpl R Rs W Ms M T TD)) r =
        .error .notConfigured) ∧
    (∀ (r : R) (m : M),
      acquisition_time (none : Option (PropsImpl R Rs W Ms M T TD)) r m =
        .error .notConfigured) ∧
    (∀ (p : PropsImpl R Rs W Ms M T TD) (r : Rs) (w : W) (m : Ms) (c : ℤ),
      determine_standard_time (some p) r w m c =
        .ok (p.determine_standard_time r w m c)) ∧
    (∀ (p : PropsImpl R Rs W Ms M T TD) (r : R),
      is_instrument (some p) r = .ok (p.is_instrument r)) ∧
    (∀ (p : PropsImpl R Rs W Ms M T TD) (r : R) (m : M),
      acquisition_time (some p) r m = .ok (p.acquisition_time r m)) ∧
    (∀ (isSub : Bool) (construct : Unit → PropsImpl R Rs W Ms M T TD)
        (st : Option (PropsImpl R Rs W Ms M T TD)) (r : R),
      set_properties (.cls isSub construct) = .ok st →
      is_instrument st r = .ok ((construct ()).is_instrument r)) := by
  refine ⟨fun _ _ _ _ => rfl, fun _ => rfl, fun _ _ => rfl,
    fun _ _ _ _ _ => rfl, fun _ _ => rfl, fun _ _ _ => rfl, ?_⟩
  intro isSub construct st r hset
  cases isSub with
  | false => exact absurd hset (by simp [set_properties])
  | true =>
    rw [show set_properties (PropsArg.cls true construct) =
      Except.ok (some (construct ())) from rfl] at hset
    injection hset with h
    subst h
    rfl

/-- C7 witness: a concrete implementation over natural-number domain types,
installed through set_properties and queried through is_instrument. -/
theorem registry_forwarding_witness :
    is_instrument
      (some ((fun _ : Unit =>
        (PropsImpl.mk (fun _ _ _ _ => (0 : ℕ)) (fun _ => true) (fun _ _ => (none : Option ℕ)) :
          PropsImpl ℕ ℕ ℕ ℕ ℕ ℕ ℕ)) ()))
      (3 : ℕ) = .ok true := by
  have h := (registry_forwarding ℕ ℕ ℕ ℕ ℕ ℕ ℕ).2.2.2.2.2.2 true
    (fun _ : Unit =>
      PropsImpl.mk (fun _ _ _ _ => (0 : ℕ)) (fun _ => true) (fun _ _ => (none : Option ℕ)))
    _ 3 rfl
  exact h

/-- C10: set_properties succeeds exactly on a class argument that is a
subclass of ObservatoryProperties; on success the stored state is a newly
constructed instance of that class, and every instance argument is
rejected, so the caller-supplied object is never stored. -/
theorem set_properties_spec (Impl : Type) :
    (∀ arg : PropsArg Impl,
      (∃ st, set_properties arg = .ok st) ↔
        ∃ construct, arg = .cls true construct) ∧
    (∀ construct : Unit → Impl,
      set_properties (.cls true construct) = .ok (some (construct ()))) ∧
    (∀ p : Impl, set_properties (.inst p) = .error .typeError) := by
  refine ⟨?_, fun construct => rfl, fun p => rfl⟩
  intro arg
  cases arg with
  | inst p => simp [set_properties]
  | cls isSub construct =>
    cases isSub with
    | false => simp [set_properties]
    | true => simp [set_properties]

lemma pyGet_nil (i : ℤ) : pyGet [] i = none := by
  rcases le_or_lt 0 i with h | h
  · rw [pyGet, if_pos h]
    exact List.get?_nil
  · have h2 : ¬ (0 ≤ i + (([] : List ℚ).length : ℤ)) := by
      simp only [List.length_nil, Nat.cast_zero, add_zero]
      omega
    rw [pyGet, if_neg (not_le.mpr h), if_neg h2]

lemma mapOrNone_cons_none {f : ℚ → Option ℚ} {x : ℚ} (hx : f x = none)
    (xs : List ℚ) : mapOrNone f (x :: xs) = none := by
  rw [mapOrNone, hx]

lemma drop_one_dropLast_range_map (f : ℕ → ℚ) (m : ℕ) :
    (((List.range (m + 2)).map f).drop 1).dropLast =
      (List.range m).map (fun i => f (i + 1)) := by
  rw [show m + 2 = (m + 1) + 1 from rfl, List.range_succ_eq_map, List.map_cons,
    List.drop_succ_cons, List.drop_zero, List.map_map, List.range_succ,
    List.map_append, List.map_singleton, List.dropLast_concat]
  rfl

/-- C6 counterexample: with zero requested slots the interior of the grid is
empty, so lerp_enum on the empty enumeration returns the empty sequence
instead of failing. -/
theorem lerp_enum_empty_zero_slots : lerp_enum [] 0 0 0 = some [] := by
  have hl : linspace 0 0 (0 + 2) = some [0, 0] := by
    rw [linspace, if_neg (by norm_num)]
    rw [show ((0 : ℤ) + 2).toNat = 2 from rfl, show List.range 2 = [0, 1] from rfl]
    norm_num [List.map_cons, List.map_nil]
  simp only [lerp_enum, hl]
  norm_num [mapOrNone]

/-- C6 amended: lerp_enum fails on the empty enumeration whenever at least
one interior slot is requested, since the first grid point then indexes the
empty sorted list. -/
theorem lerp_enum_empty_fails (a b : ℚ) (n : ℤ) (hn : 1 ≤ n) :
    lerp_enum [] a b n = none := by
  have hyp : (n + 2).toNat = (n.toNat - 1) + 1 + 2 := by omega
  have hlin : linspace a b (n + 2) =
      some ((List.range ((n.toNat - 1) + 1 + 2)).map
        (fun i : ℕ => a + (b - a) * (i : ℚ) / (((n + 2 : ℤ) : ℚ) - 1))) := by
    rw [linspace, if_neg (by omega), hyp]
  have hint := drop_one_dropLast_range_map
    (fun i : ℕ => a + (b - a) * (i : ℚ) / (((n + 2 : ℤ) : ℚ) - 1)) ((n.toNat - 1) + 1)
  have hnone : ∀ x : ℚ,
      pyGet (List.insertionSort (· ≤ ·) []) ((bisect_right (List.insertionSort (· ≤ ·) []) x : ℤ) - 1) = none :=
    fun x => pyGet_nil _
  have hnone' : ∀ x : ℚ,
      pyGet (List.insertionSort (· ≤ ·) []) ((bisect_left (List.insertionSort (· ≤ ·) []) x : ℤ) - 1) = none :=
    fun x => pyGet_nil _
  simp only [lerp_enum, hlin, hint, List.range_succ_eq_map, List.map_cons]
  rcases le_or_lt a b with hab | hab
  · rw [if_pos hab]
    exact mapOrNone_cons_none (hnone _) _
  · rw [if_neg (not_le.mpr hab)]
    exact mapOrNone_cons_none (hnone' _) _

/-- C6 witness for the amended claim, at one slot. -/
theorem lerp_enum_empty_fails_witness :
    lerp_enum [] 0 0 1 = none :=
  lerp_enum_empty_fails 0 0 1 (by norm_num)

lemma sorted_le_mem_takeWhile (x : ℚ) :
    ∀ (l : List ℚ), l.Sorted (· ≤ ·) →
      ∀ w ∈ l, w ≤ x → w ∈ l.takeWhile (fun y => decide (y ≤ x)) := by
  intro l
  induction l with
  | nil => intro _ w hw _; exact absurd hw (List.not_mem_nil w)
  | cons a rest ih =>
    intro hl w hw hwx
    rw [List.sorted_cons] at hl
    rcases List.mem_cons.mp hw with rfl | hwr
    · rw [List.takeWhile_cons_of_pos (p := fun y => decide (y ≤ x)) (decide_eq_true hwx)]
      exact List.mem_cons_self _ _
    · have hax : a ≤ x := le_trans (hl.1 w hwr) hwx
      rw [List.takeWhile_cons_of_pos (p := fun y => decide (y ≤ x)) (decide_eq_true hax)]
      exact List.mem_cons_of_mem _ (ih hl.2 w hwr hwx)

lemma sorted_mem_le_getLast :
    ∀ (l : List ℚ), l.Sorted (· ≤ ·) → (h : l ≠ []) → ∀ w ∈ l, w ≤ l.getLast h := by
  intro l
  induction l with
  | nil => intro _ h; exact absurd rfl h
  | cons a rest ih =>
    intro hl h w hw
    rw [List.sorted_cons] at hl
    rcases List.mem_cons.mp hw with rfl | hwr
    · cases rest with
      | nil => exact le_of_eq rfl
      | cons b rest' =>
        rw [List.getLast_cons (by simp : (b :: rest') ≠ [])]
        exact hl.1 _ (List.getLast_mem _)
    · cases rest with
      | nil => exact absurd hwr (List.not_mem_nil w)
      | cons b rest' =>
        rw [List.getLast_cons (by simp : (b :: rest') ≠ [])]
        exact ih hl.2 (by simp) w hwr

/-- On a sorted list containing some element at most x, the source's
sorted_values[bisect_right(sorted_values, x) - 1] selection returns the
greatest element at most x. -/
lemma pick_some_isGreatest {l : List ℚ} (hl : l.Sorted (· ≤ ·)) {x : ℚ}
    (hx : ∃ v ∈ l, v ≤ x) :
    ∃ v, pyGet l ((bisect_right l x : ℤ) - 1) = some v ∧ v ∈ l ∧ v ≤ x ∧
      ∀ w ∈ l, w ≤ x → w ≤ v := by
  obtain ⟨v0, hv0l, hv0x⟩ := hx
  have hv0t : v0 ∈ l.takeWhile (fun y => decide (y ≤ x)) :=
    sorted_le_mem_takeWhile x l hl v0 hv0l hv0x
  have htne : l.takeWhile (fun y => decide (y ≤ x)) ≠ [] := List.ne_nil_of_mem hv0t
  have htpos : 0 < (l.takeWhile (fun y => decide (y ≤ x))).length :=
    List.length_pos.mpr htne
  have htsorted : (l.takeWhile (fun y => decide (y ≤ x))).Sorted (· ≤ ·) :=
    List.Pairwise.sublist (List.takeWhile_sublist _) hl
  have hidx : ((bisect_right l x : ℤ) - 1) =
      (((l.takeWhile (fun y => decide (y ≤ x))).length - 1 : ℕ) : ℤ) := by
    rw [bisect_right]
    omega
  have hlt : (l.takeWhile (fun y => decide (y ≤ x))).length - 1 <
      (l.takeWhile (fun y => decide (y ≤ x))).length := by omega
  have hgetl : l.get? ((l.takeWhile (fun y => decide (y ≤ x))).length - 1) =
      (l.takeWhile (fun y => decide (y ≤ x))).get?
        ((l.takeWhile (fun y => decide (y ≤ x))).length - 1) := by
    have happ : (l.takeWhile (fun y => decide (y ≤ x)) ++
          l.dropWhile (fun y => decide (y ≤ x))).get?
          ((l.takeWhile (fun y => decide (y ≤ x))).length - 1) =
        (l.takeWhile (fun y => decide (y ≤ x))).get?
          ((l.takeWhile (fun y => decide (y ≤ x))).length - 1) :=
      List.get?_append hlt
    rwa [List.takeWhile_append_dropWhile] at happ
  have hvget : (l.takeWhile (fun y => decide (y ≤ x))).get?
      ((l.takeWhile (fun y => decide (y ≤ x))).length - 1) =
      some ((l.takeWhile (fun y => decide (y ≤ x))).getLast htne) := by
    rw [List.get?_eq_get hlt, List.getLast_eq_get]
  refine ⟨(l.takeWhile (fun y => decide (y ≤ x))).getLast htne, ?_, ?_, ?_, ?_⟩
  · rw [hidx, pyGet, if_pos (Int.natCast_nonneg _), Int.toNat_natCast, hgetl, hvget]
  · exact (List.takeWhile_sublist _).subset (List.getLast_mem htne)
  · have hpt : (fun y => decide (y ≤ x))
        ((l.takeWhile (fun y => decide (y ≤ x))).getLast htne) = true :=
      List.mem_takeWhile_imp (p := fun y => decide (y ≤ x)) (List.getLast_mem htne)
    exact of_decide_eq_true hpt
  · intro w hwl hwx
    exact sorted_mem_le_getLast _ htsorted htne w
      (sorted_le_mem_takeWhile x l hl w hwl hwx)

/-- When the body of the comprehension succeeds on every element, the
comprehension returns the list of results, elementwise. -/
lemma mapOrNone_forall {P : ℚ → ℚ → Prop} (f : ℚ → Option ℚ) :
    ∀ (xs : List ℚ), (∀ x ∈ xs, ∃ v, f x = some v ∧ P x v) →
      ∃ l, mapOrNone f xs = some l ∧ l.length = xs.length ∧
        ∀ (i : ℕ) (hi : i < xs.length) (hi2 : i < l.length),
          P (xs.get ⟨i, hi⟩) (l.get ⟨i, hi2⟩) := by
  intro xs
  induction xs with
  | nil => exact fun _ => ⟨[], rfl, rfl, fun i hi _ => absurd hi (by simp)⟩
  | cons x xs ih =>
    intro hall
    obtain ⟨v, hv, hPv⟩ := hall x (List.mem_cons_self x xs)
    obtain ⟨l, hml, hlen, hP⟩ := ih (fun y hy => hall y (List.mem_cons_of_mem x hy))
    refine ⟨v :: l, ?_, by simp [hlen], ?_⟩
    · rw [mapOrNone, hv, hml]
    · intro i hi hi2
      cases i with
      | zero => exact hPv
      | succ j => exact hP j (Nat.lt_of_succ_lt_succ hi) (Nat.lt_of_succ_lt_succ hi2)

/-- C2 amended: when the ramp ascends, at least one slot is requested and
the least enumeration value does not exceed first_value, lerp_enum returns
exactly n values, the i-th being the greatest enumeration value at most the
i-th interior point of the n+2-point grid; the sequence is non-decreasing
and draws only from the enumeration. -/
theorem lerp_enum_spec (values : List ℚ) (first_value last_value : ℚ) (n : ℤ)
    (hfl : first_value ≤ last_value) (hn : 1 ≤ n)
    (hmin : ∃ v ∈ values, v ≤ first_value) :
    ∃ l, lerp_enum values first_value last_value n = some l ∧
      l.length = n.toNat ∧
      l.Chain' (· ≤ ·) ∧
      (∀ x ∈ l, x ∈ values) ∧
      ∀ (i : ℕ) (hi : i < l.length),
        IsGreatest {w | w ∈ values ∧
          w ≤ first_value + (last_value - first_value) * ((i : ℚ) + 1) / ((n : ℚ) + 1)}
          (l.get ⟨i, hi⟩) := by
  have hm2 : (n + 2).toNat = n.toNat + 2 := by omega
  have hlin : linspace first_value last_value (n + 2) =
      some ((List.range (n.toNat + 2)).map
        (fun i : ℕ => first_value +
          (last_value - first_value) * (i : ℚ) / (((n + 2 : ℤ) : ℚ) - 1))) := by
    rw [linspace, if_neg (by omega), hm2]
  have hdenpos : (0 : ℚ) < (n : ℚ) + 1 := by
    have h1 : (1 : ℚ) ≤ (n : ℚ) := by exact_mod_cast hn
    linarith
  have hint := drop_one_dropLast_range_map
    (fun i => first_value +
      (last_value - first_value) * (i : ℚ) / (((n + 2 : ℤ) : ℚ) - 1)) n.toNat
  have hgp_form : ∀ i : ℕ,
      first_value + (last_value - first_value) * ((i + 1 : ℕ) : ℚ) / (((n + 2 : ℤ) : ℚ) - 1) =
        first_value + (last_value - first_value) * ((i : ℚ) + 1) / ((n : ℚ) + 1) := by
    intro i
    push_cast
    ring
  have hgp_ge : ∀ i : ℕ, first_value ≤
      first_value + (last_value - first_value) * ((i + 1 : ℕ) : ℚ) / (((n + 2 : ℤ) : ℚ) - 1) := by
    intro i
    rw [hgp_form i]
    have ht : 0 ≤ (last_value - first_value) * ((i : ℚ) + 1) / ((n : ℚ) + 1) :=
      div_nonneg (mul_nonneg (by linarith) (by positivity)) (le_of_lt hdenpos)
    linarith
  have hgp_mono : ∀ i : ℕ,
      first_value + (last_value - first_value) * ((i + 1 : ℕ) : ℚ) / (((n + 2 : ℤ) : ℚ) - 1) ≤
        first_value + (last_value - first_value) * ((i + 1 + 1 : ℕ) : ℚ) / (((n + 2 : ℤ) : ℚ) - 1) := by
    intro i
    rw [hgp_form i, hgp_form (i + 1)]
    apply add_le_add_left
    exact (div_le_div_right hdenpos).mpr
      (mul_le_mul_of_nonneg_left (by push_cast; linarith) (by linarith))
  have hsorted : (List.insertionSort (· ≤ ·) values).Sorted (· ≤ ·) :=
    List.sorted_insertionSort _ _
  have hperm : (List.insertionSort (· ≤ ·) values).Perm values :=
    List.perm_insertionSort _ _
  have hpick : ∀ x ∈ (List.range n.toNat).map
      (fun i => first_value +
        (last_value - first_value) * ((i + 1 : ℕ) : ℚ) / (((n + 2 : ℤ) : ℚ) - 1)),
      ∃ v, pyGet (List.insertionSort (· ≤ ·) values)
          ((bisect_right (List.insertionSort (· ≤ ·) values) x : ℤ) - 1) = some v ∧
        (v ∈ values ∧ v ≤ x ∧ ∀ w ∈ values, w ≤ x → w ≤ v) := by
    intro x hxmem
    obtain ⟨i, hir, hefx⟩ := List.mem_map.mp hxmem
    subst hefx
    have hex : ∃ v ∈ List.insertionSort (· ≤ ·) values,
        v ≤ first_value +
          (last_value - first_value) * ((i + 1 : ℕ) : ℚ) / (((n + 2 : ℤ) : ℚ) - 1) := by
      obtain ⟨v, hv, hvf⟩ := hmin
      exact ⟨v, hperm.mem_iff.mpr hv, le_trans hvf (hgp_ge i)⟩
    obtain ⟨v, hvg, hvmem, hvle, hvmax⟩ := pick_some_isGreatest hsorted hex
    exact ⟨v, hvg, hperm.mem_iff.mp hvmem, hvle,
      fun w hw hwx => hvmax w (hperm.mem_iff.mpr hw) hwx⟩
  obtain ⟨l, hml, hlen, hP⟩ := mapOrNone_forall
    (P := fun x v => v ∈ values ∧ v ≤ x ∧ ∀ w ∈ values, w ≤ x → w ≤ v) _ _ hpick
  have hxslen : ((List.range n.toNat).map
      (fun i => first_value +
        (last_value - first_value) * ((i + 1 : ℕ) : ℚ) / (((n + 2 : ℤ) : ℚ) - 1))).length
      = n.toNat := by simp
  have hllen : l.length = n.toNat := by rw [hlen, hxslen]
  have hgetxs : ∀ (i : ℕ) (hi : i < ((List.range n.toNat).map
      (fun i => first_value +
        (last_value - first_value) * ((i + 1 : ℕ) : ℚ) / (((n + 2 : ℤ) : ℚ) - 1))).length),
      ((List.range n.toNat).map
        (fun i => first_value +
          (last_value - first_value) * ((i + 1 : ℕ) : ℚ) / (((n + 2 : ℤ) : ℚ) - 1))).get ⟨i, hi⟩
        = first_value +
          (last_value - first_value) * ((i + 1 : ℕ) : ℚ) / (((n + 2 : ℤ) : ℚ) - 1) := by
    intro i hi
    rw [List.get_map, List.get_range]
  refine ⟨l, ?_, hllen, ?_, ?_, ?_⟩
  · simp only [lerp_enum, hlin]
    rw [if_pos hfl, hint]
    exact hml
  · rw [List.chain'_iff_get]
    intro i hi
    have hil : i < l.length := by omega
    have hil1 : i + 1 < l.length := by omega
    have hix : i < ((List.range n.toNat).map
        (fun i => first_value +
          (last_value - first_value) * ((i + 1 : ℕ) : ℚ) / (((n + 2 : ℤ) : ℚ) - 1))).length := by
      rw [hxslen]
      omega
    have hix1 : i + 1 < ((List.range n.toNat).map
        (fun i => first_value +
          (last_value - first_value) * ((i + 1 : ℕ) : ℚ) / (((n + 2 : ℤ) : ℚ) - 1))).length := by
      rw [hxslen]
      omega
    obtain ⟨hPmem, hPle, hPmax⟩ := hP i hix hil
    obtain ⟨hQmem, hQle, hQmax⟩ := hP (i + 1) hix1 hil1
    rw [hgetxs i hix] at hPle
    rw [hgetxs (i + 1) hix1] at hQmax
    exact hQmax _ hPmem (le_trans hPle (hgp_mono i))
  · intro x hx
    obtain ⟨⟨i, hi2⟩, hgx⟩ := List.mem_iff_get.mp hx
    have hix : i < ((List.range n.toNat).map
        (fun i => first_value +
          (last_value - first_value) * ((i + 1 : ℕ) : ℚ) / (((n + 2 : ℤ) : ℚ) - 1))).length := by
      rw [hxslen, ← hllen]
      exact hi2
    obtain ⟨hPmem, _, _⟩ := hP i hix hi2
    rwa [hgx] at hPmem
  · intro i hi
    have hix : i < ((List.range n.toNat).map
        (fun i => first_value +
          (last_value - first_value) * ((i + 1 : ℕ) : ℚ) / (((n + 2 : ℤ) : ℚ) - 1))).length := by
      rw [hxslen, ← hllen]
      exact hi
    obtain ⟨hPmem, hPle, hPmax⟩ := hP i hix hi
    rw [hgetxs i hix] at hPle hPmax
    constructor
    · refine ⟨hPmem, ?_⟩
      rw [← hgp_form i]
      exact hPle
    · rintro w ⟨hwv, hwle⟩
      refine hPmax w hwv ?_
      rw [hgp_form i]
      exact hwle

/-- C2 counterexample: with the enumeration value 10 and an ascending ramp
sitting at 0, the single grid point is 0, no enumeration value is at most 0,
yet the function returns 10 through Python negative indexing, so the claimed
greatest-value-below selection fails for first and last values below the
least enumeration value. -/
theorem lerp_enum_below_min :
    lerp_enum [10] 0 0 1 = some [10] ∧
    ¬ ∃ v : ℚ, IsGreatest {w : ℚ | w ∈ [(10 : ℚ)] ∧
        w ≤ 0 + (0 - 0) * ((0 : ℚ) + 1) / (((1 : ℤ) : ℚ) + 1)} v := by
  constructor
  · have hlin : linspace 0 0 (1 + 2) = some [0, 0, 0] := by
      rw [linspace, if_neg (by norm_num)]
      rw [show ((1 : ℤ) + 2).toNat = 3 from rfl, show List.range 3 = [0, 1, 2] from rfl]
      norm_num [List.map_cons, List.map_nil]
    have hsort : List.insertionSort (· ≤ ·) [(10 : ℚ)] = [10] := rfl
    have hb : bisect_right [(10 : ℚ)] 0 = 0 := by
      rw [bisect_right, List.takeWhile_cons_of_neg (p := fun y => decide (y ≤ (0 : ℚ)))
        (by norm_num)]
      rfl
    have hpick : pyGet [(10 : ℚ)] ((bisect_right [(10 : ℚ)] 0 : ℤ) - 1) = some 10 := by
      rw [hb]
      norm_num [pyGet]
    simp only [lerp_enum, hlin, hsort]
    rw [if_pos le_rfl]
    rw [show (([0, 0, 0] : List ℚ).drop 1).dropLast = [(0 : ℚ)] from rfl]
    simp only [mapOrNone, hpick]
  · rintro ⟨v, ⟨⟨hm, hle⟩, _⟩⟩
    simp only [List.mem_singleton] at hm
    subst hm
    norm_num at hle

/-- C2 witness for the amended claim, at the enumeration values 0, 10, 20,
30 with an ascending ramp from 0 to 30 over three slots. -/
theorem lerp_enum_spec_witness :
    (0 : ℚ) ≤ 30 ∧ (1 : ℤ) ≤ 3 ∧ (∃ v ∈ [(0 : ℚ), 10, 20, 30], v ≤ 0) ∧
    (∃ l, lerp_enum [(0 : ℚ), 10, 20, 30] 0 30 3 = some l ∧
      l.length = (3 : ℤ).toNat ∧
      l.Chain' (· ≤ ·) ∧
      (∀ x ∈ l, x ∈ [(0 : ℚ), 10, 20, 30]) ∧
      ∀ (i : ℕ) (hi : i < l.length),
        IsGreatest {w | w ∈ [(0 : ℚ), 10, 20, 30] ∧
          w ≤ 0 + (30 - 0) * ((i : ℚ) + 1) / (((3 : ℤ) : ℚ) + 1)} (l.get ⟨i, hi⟩)) :=
  ⟨by norm_num, by norm_num, ⟨0, by simp, le_refl 0⟩,
    lerp_enum_spec [0, 10, 20, 30] 0 30 3 (by norm_num) (by norm_num)
      ⟨0, by simp, le_refl 0⟩⟩

end Lucupy
